import Mathlib

/-!
Shallow embedding of the BEP stream reader in src/tools/bepstream/main.go.

The embedding covers the streaming core identified by the specification:
frame decoding via protodelim over a possibly-still-growing byte source
(readDelimitedMessage, main.go lines 150-170), the orchestrating read loop
(streamBEP, lines 60-110), the per-event aggregation (processEvent, lines
209-282, and buildStats, lines 172-187) and the duration line of
printSummary (lines 196-199).

Modelling conventions:
- Bytes are Nat values; a byte stream is a List Nat.
- Wall-clock time is an abstract Nat; it advances only at time.Sleep calls
  (by the poll interval).  A byte source is a function avail : Nat → List Nat
  giving the file contents visible at each instant; the buffered reader's
  position is an explicit cursor into that list (bufio over an os.File
  re-reads at the current offset after EOF, so retrying at the same cursor
  over grown contents is the faithful picture).
- The external protodelim.UnmarshalFrom (google.golang.org/protobuf) is not
  part of this repository; it is embedded by its documented behaviour, which
  the repository's own tests pin down (main_test.go TestProtodelimUnmarshal):
  io.EOF only when no byte of the next message is available, a distinct
  non-EOF error (io.ErrUnexpectedEOF) for a truncated varint or a body
  shorter than its declared length, the 10-byte varint cap and the 4 MiB
  default size limit.  The payload decode (proto.Unmarshal) is an opaque
  hook, as the specification demands.
- Go panics (nil-pointer dereference) are embedded as Option.none results.
- Console output is out of scope per the specification; the only modelled
  piece of rendering is which duration value printSummary reports.
-/

/-- TestStatus from the bundled BEP proto (build_event_stream.proto). -/
inductive TestStatus where
  | NO_STATUS
  | PASSED
  | FLAKY
  | TIMEOUT
  | FAILED
  | INCOMPLETE
  | REMOTE_FAILURE
  | FAILED_TO_BUILD
  | TOOL_HALTED_BEFORE_TESTING
  deriving DecidableEq, Repr

/-- The closed set of payload variants that the type switch in processEvent
(main.go lines 210-281) distinguishes.  Only the data that feeds the
aggregator is carried: uuid/command/timestamps for Started, the optional
ExitCode sub-message and optional FinishTime for Finished, the success flag
for Completed and Action, the overall status for TestSummary.  Fields used
only for the emitted text line (labels, descriptions, mnemonics) are
omitted, as the specification excludes console rendering.  Unknown stands
for a payload kind with no case in the switch, including a nil payload. -/
inductive Payload where
  | Started (uuid command : String) (startTime : Option Int)
  | Finished (exitCode : Option Int) (finishTime : Option Int)
  | Progress
  | Configured
  | Completed (success : Bool)
  | Action (success : Bool)
  | TestResult (status : TestStatus)
  | TestSummary (overallStatus : TestStatus)
  | Aborted
  | Configuration
  | BuildToolLogs
  | BuildMetrics
  | Unknown
  deriving DecidableEq, Repr

/-- A decoded bespb.BuildEvent as the stream loop consumes it: the payload
oneof and the LastMessage terminal flag. -/
structure BuildEvent where
  payload : Payload
  lastMessage : Bool := false
  deriving DecidableEq, Repr

/-- The buildStats accumulator (main.go lines 172-187).  Go zero values are
the field defaults; time.Time is abstracted to an Int timestamp whose zero
value is 0. -/
structure buildStats where
  buildStarted : Bool := false
  buildFinished : Bool := false
  startTime : Int := 0
  endTime : Int := 0
  uuid : String := ""
  command : String := ""
  exitCode : Int := 0
  targetsBuilt : Nat := 0
  targetsFailed : Nat := 0
  testsRun : Nat := 0
  testsPassed : Nat := 0
  testsFailed : Nat := 0
  actionsExecuted : Nat := 0
  progressEvents : Nat := 0
  deriving DecidableEq, Repr

/-- streamOptions (main.go lines 54-58); durations are abstract Nat ticks. -/
structure streamOptions where
  follow : Bool
  pollInterval : Nat
  timeout : Nat
  deriving DecidableEq, Repr

/-- processEvent (main.go lines 209-282).  Returns none exactly where the Go
code panics: the Finished case reads p.Finished.ExitCode.Code without a nil
check, so a Finished event whose ExitCode sub-message is absent dereferences
a nil pointer.  StartTime and FinishTime are nil-guarded in the source, so a
missing timestamp leaves the recorded value unchanged.  Print-only cases
leave the stats untouched. -/
def processEvent (event : BuildEvent) (stats : buildStats) : Option buildStats :=
  match event.payload with
  | .Started uuid command startTime =>
      some { stats with
        buildStarted := true
        uuid := uuid
        command := command
        startTime := startTime.getD stats.startTime }
  | .Finished exitCode finishTime =>
      match exitCode with
      | none => none
      | some code =>
          some { stats with
            buildFinished := true
            exitCode := code
            endTime := finishTime.getD stats.endTime }
  | .Progress => some { stats with progressEvents := stats.progressEvents + 1 }
  | .Configured => some stats
  | .Completed success =>
      if success then
        some { stats with targetsBuilt := stats.targetsBuilt + 1 }
      else
        some { stats with
          targetsBuilt := stats.targetsBuilt + 1
          targetsFailed := stats.targetsFailed + 1 }
  | .Action _ => some { stats with actionsExecuted := stats.actionsExecuted + 1 }
  | .TestResult _ => some stats
  | .TestSummary status =>
      if status = TestStatus.PASSED then
        some { stats with testsRun := stats.testsRun + 1, testsPassed := stats.testsPassed + 1 }
      else
        some { stats with testsRun := stats.testsRun + 1, testsFailed := stats.testsFailed + 1 }
  | .Aborted => some stats
  | .Configuration => some stats
  | .BuildToolLogs => some stats
  | .BuildMetrics => some stats
  | .Unknown => some stats

/-- Sequential aggregation of a list of events, propagating a panic. -/
def applyEvents : List BuildEvent → buildStats → Option buildStats
  | [], s => some s
  | e :: es, s =>
      match processEvent e s with
      | none => none
      | some s' => applyEvents es s'

/-- The duration line of printSummary (main.go lines 196-199): a duration is
printed iff both buildStarted and buildFinished are set, and its value is
endTime - startTime over whatever values the fields hold. -/
def printSummaryDuration (s : buildStats) : Option Int :=
  if s.buildStarted && s.buildFinished then some (s.endTime - s.startTime) else none

/-- Errors of one protodelim.UnmarshalFrom attempt.  Only eof is retryable
in readDelimitedMessage; every other constructor is a non-EOF Go error. -/
inductive ParseErr where
  | eof
  | unexpectedEOF
  | overflow
  | sizeTooLarge
  | unmarshalFailure
  deriving DecidableEq, Repr

/-- Result of one protodelim.UnmarshalFrom attempt: a decoded event plus the
number of bytes consumed, or an error. -/
inductive ParseResult where
  | ok (ev : BuildEvent) (consumed : Nat)
  | fail (e : ParseErr)
  deriving DecidableEq, Repr

/-- The size-varint byte collection loop of protodelim.UnmarshalFrom: read
up to the given number of bytes, stopping after the first byte with the
continuation (high) bit clear. -/
def takeVarintBytes : Nat → List Nat → List Nat
  | 0, _ => []
  | _ + 1, [] => []
  | n + 1, b :: rest => if b < 128 then [b] else b :: takeVarintBytes n rest

/-- Whether a collected varint byte sequence ends with a terminator byte
(high bit clear), i.e. protowire.ConsumeVarint would not report truncation. -/
def varintComplete : List Nat → Bool
  | [] => false
  | [b] => b < 128
  | _ :: rest => varintComplete rest

/-- Value of a little-endian base-128 varint byte sequence. -/
def varintValue : List Nat → Nat
  | [] => 0
  | b :: rest => b % 128 + 128 * varintValue rest

/-- One protodelim.UnmarshalFrom attempt over the bytes visible from the
current position.  Mirrors the library: io.EOF iff no byte at all is
available; a varint left incomplete by exhaustion is io.ErrUnexpectedEOF; a
10-byte varint without terminator, or a value not fitting uint64, is an
overflow parse error; sizes above the 4 MiB default cap are rejected; a
body shorter than the declared size is io.ErrUnexpectedEOF; otherwise the
body bytes go to the opaque payload-decode hook (proto.Unmarshal), whose
failure is a non-EOF error. -/
def parseDelim (hook : List Nat → Option BuildEvent) (bs : List Nat) : ParseResult :=
  match bs with
  | [] => .fail .eof
  | _ :: _ =>
    let sizeBuf := takeVarintBytes 10 bs
    if varintComplete sizeBuf then
      let size := varintValue sizeBuf
      if 2 ^ 64 ≤ size then .fail .overflow
      else if 4194304 < size then .fail .sizeTooLarge
      else
        let rest := bs.drop sizeBuf.length
        if rest.length < size then .fail .unexpectedEOF
        else
          match hook (rest.take size) with
          | some ev => .ok ev (sizeBuf.length + size)
          | none => .fail .unmarshalFailure
    else
      if sizeBuf.length = 10 then .fail .overflow else .fail .unexpectedEOF

/-- Outcome of streamReader.readDelimitedMessage: a decoded event with the
new cursor and the time of return, an io.EOF result, a fatal non-EOF error,
or exhaustion of the modelling fuel (the Go loop is unbounded). -/
inductive ReadOutcome where
  | ok (ev : BuildEvent) (cursor : Nat) (time : Nat)
  | eof (time : Nat)
  | fail (time : Nat)
  | fuelOut
  deriving DecidableEq, Repr

/-- streamReader.readDelimitedMessage (main.go lines 150-170).  startT is
the value time.Now() takes at the start of THIS call - the deadline window
is anchored per call, not per run.  On a parse success the event is
returned; on a non-EOF parse error the call fails; on io.EOF it returns EOF
when not following or when the per-call window has elapsed (strictly
greater, as in time.Since(startTime) > r.timeout), and otherwise sleeps one
poll interval and retries at the same cursor. -/
def readDelimitedMessage (hook : List Nat → Option BuildEvent) (avail : Nat → List Nat)
    (follow : Bool) (pollInterval timeout : Nat) (cursor startT : Nat) :
    Nat → Nat → ReadOutcome
  | 0, _ => .fuelOut
  | fuel + 1, t =>
    match parseDelim hook ((avail t).drop cursor) with
    | .ok ev consumed => .ok ev (cursor + consumed) t
    | .fail .eof =>
        if follow = false then .eof t
        else if timeout < t - startT then .eof t
        else readDelimitedMessage hook avail follow pollInterval timeout cursor startT fuel
               (t + pollInterval)
    | .fail _ => .fail t

/-- How a run of streamBEP ended, classifying the exit paths of the loop in
main.go lines 82-102: break on LastMessage, break on EOF (timeout when
following, end of stream otherwise), early return on a read error, a panic
escaping processEvent, or modelling fuel exhaustion. -/
inductive TermReason where
  | explicitLast
  | timeout
  | endOfStream
  | error
  | panicked
  | fuelOut
  deriving DecidableEq, Repr

/-- Observable outcome of a streamBEP run: the termination reason, the final
aggregator state, the final eventCount, whether the statistics block after
the loop was reached (the snapshot print), the list of events that updated
the aggregator in order, and the wall-clock instant the run ended. -/
structure RunResult where
  reason : TermReason
  stats : buildStats
  eventCount : Nat
  snapshotEmitted : Bool
  processed : List BuildEvent
  endTime : Nat
  deriving DecidableEq, Repr

/-- The read loop of streamBEP (main.go lines 81-102) together with the
statistics epilogue (lines 104-108).  outerStart is the time.Now() taken
before the loop; the loop state is the reader cursor, the current time, the
stats and the eventCount.  On io.EOF it re-polls while following and the
run-level window has not elapsed, else breaks; a read error returns early -
before the statistics block, so no snapshot is emitted on that path; on a
decoded event it increments eventCount, updates the aggregator (a panic
aborts everything) and breaks when LastMessage is set. -/
def streamLoop (hook : List Nat → Option BuildEvent) (avail : Nat → List Nat)
    (opts : streamOptions) (outerStart : Nat) :
    Nat → Nat → Nat → buildStats → Nat → RunResult
  | 0, _, t, stats, count => ⟨.fuelOut, stats, count, false, [], t⟩
  | fuel + 1, cursor, t, stats, count =>
    match readDelimitedMessage hook avail opts.follow opts.pollInterval opts.timeout
        cursor t (fuel + 1) t with
    | .fuelOut => ⟨.fuelOut, stats, count, false, [], t⟩
    | .eof t' =>
        if opts.follow = true ∧ t' - outerStart < opts.timeout then
          streamLoop hook avail opts outerStart fuel cursor (t' + opts.pollInterval) stats count
        else
          ⟨if opts.follow then .timeout else .endOfStream, stats, count, true, [], t'⟩
    | .fail t' => ⟨.error, stats, count, false, [], t'⟩
    | .ok ev cursor' t' =>
        match processEvent ev stats with
        | none => ⟨.panicked, stats, count + 1, false, [], t'⟩
        | some stats' =>
            if ev.lastMessage then
              ⟨.explicitLast, stats', count + 1, true, [ev], t'⟩
            else
              let r := streamLoop hook avail opts outerStart fuel cursor' t' stats' (count + 1)
              { r with processed := ev :: r.processed }

/-- A whole ingestion run (streamBEP, main.go lines 60-110) from a fresh
reader at offset 0, time 0, zero stats and zero eventCount. -/
def streamBEP (hook : List Nat → Option BuildEvent) (avail : Nat → List Nat)
    (opts : streamOptions) (fuel : Nat) : RunResult :=
  streamLoop hook avail opts 0 fuel 0 0 {} 0

/-- Prefix a trace of already-processed events onto a run result. -/
def addTrace (es : List BuildEvent) (r : RunResult) : RunResult :=
  { r with processed := es ++ r.processed }

/-- Frames for events numbered k, k+1, ..., k+n-1: each frame is a length-1
varint followed by the single body byte naming the event.  Used to drive the
byte-level pipeline from an abstract event list. -/
def encFrom : Nat → Nat → List Nat
  | _, 0 => []
  | k, n + 1 => 1 :: k :: encFrom (k + 1) n

/-- Decode hook pairing encFrom with an event list: body byte k decodes to
the k-th event. -/
def evHook (es : List BuildEvent) : List Nat → Option BuildEvent :=
  fun bs =>
    match bs with
    | [k] => es[k]?
    | _ => none

/-- A well formed varint length prefix: nonempty, at most 10 bytes, all but
the last byte carrying the continuation bit, the last byte with it clear. -/
def IsVarintEnc (lb : List Nat) : Prop :=
  lb ≠ [] ∧ lb.length ≤ 10 ∧ (∀ b ∈ lb.dropLast, 128 ≤ b) ∧ varintComplete lb = true

/-- A truncated frame: a well formed length prefix declaring more body bytes
than follow, with nothing after the short body. -/
def TruncatedFrame (bs : List Nat) : Prop :=
  ∃ lb body, bs = lb ++ body ∧ IsVarintEnc lb ∧ body.length < varintValue lb

/-- An incrementally growing source: at each instant t the file holds the
first t frames (one whole frame appended per tick), capped at the full
event list.  Frames appear atomically - a reader never sees half a frame. -/
def availInc (es : List BuildEvent) : Nat → List Nat :=
  fun t => encFrom 0 (min t es.length)

/-- Whether an event is a Started event (drives the buildStarted flag). -/
def evIsStarted (e : BuildEvent) : Bool :=
  match e.payload with
  | .Started _ _ _ => true
  | _ => false

/-- Whether an event is a Finished event (drives the buildFinished flag). -/
def evIsFinished (e : BuildEvent) : Bool :=
  match e.payload with
  | .Finished _ _ => true
  | _ => false

/-- The aggregator invariants of the implicit claim: test counters add up
and failed targets never exceed built targets. -/
def statsInv (s : buildStats) : Prop :=
  s.testsPassed + s.testsFailed = s.testsRun ∧ s.targetsFailed ≤ s.targetsBuilt

/-- The event sequence of the specification's concrete scenario: Started,
two Progress events, a successful Completed, a passing TestSummary, a
Finished with exit code 0, and an empty terminal event. -/
def scenarioEvents : List BuildEvent :=
  [ ⟨.Started "X" "build" none, false⟩,
    ⟨.Progress, false⟩,
    ⟨.Progress, false⟩,
    ⟨.Completed true, false⟩,
    ⟨.TestSummary .PASSED, false⟩,
    ⟨.Finished (some 0) none, false⟩,
    ⟨.Unknown, true⟩ ]

/-- The scenario run: all seven frames present up front, one-shot mode. -/
def scenarioRun : RunResult :=
  streamBEP (evHook scenarioEvents) (fun _ => encFrom 0 scenarioEvents.length)
    ⟨false, 1, 100⟩ 9

/-- A single Progress event used by the concrete schedules below. -/
def progressEvent : BuildEvent := ⟨.Progress, false⟩

/-- Hook for the concrete schedules: the one body byte 0 decodes to a
Progress event. -/
def oneEventHook : List Nat → Option BuildEvent :=
  fun bs => if bs = [0] then some progressEvent else none

/-- Byte-at-a-time arrival: at time 0 only the length byte of the single
frame [1, 0] has been appended; from time 1 on the whole frame is there. -/
def dribbleAvail : Nat → List Nat :=
  fun t => if t = 0 then [1] else [1, 0]

/-- Tailing run over the byte-at-a-time schedule (poll 1, deadline 3). -/
def dribbleRun : RunResult :=
  streamBEP oneEventHook dribbleAvail ⟨true, 1, 3⟩ 8

/-- Tailing run over a single bulk write of the same bytes [1, 0]. -/
def bulkRun : RunResult :=
  streamBEP oneEventHook (fun _ => [1, 0]) ⟨true, 1, 3⟩ 8

/-- Late-arrival schedule: the single frame [1, 0] appears at time 3, just
before the deadline of 3 elapses. -/
def lateAvail : Nat → List Nat :=
  fun t => if t < 3 then [] else [1, 0]

/-- Tailing run over the late-arrival schedule (poll 1, deadline 3). -/
def lateRun : RunResult :=
  streamBEP oneEventHook lateAvail ⟨true, 1, 3⟩ 12

/-- One-shot run over a lone truncated frame: the length byte declares five
body bytes but none follow. -/
def truncatedRun : RunResult :=
  streamBEP (fun _ => none) (fun _ => [5]) ⟨false, 1, 100⟩ 3

/-- An empty event carrying the LastMessage terminal flag. -/
def terminalEvent : BuildEvent := ⟨.Unknown, true⟩

/-- A Started event with no start timestamp followed by a Finished event
with a timestamp: the Started/Finished flags are both set but the recorded
start time is still the zero default. -/
def missingStartTimestamp : List BuildEvent :=
  [⟨.Started "u" "c" none, false⟩, ⟨.Finished (some 0) (some 5), false⟩]

/-- A Started event at time 10 followed by a Finished event at time 3: the
derived duration is negative. -/
def negDuration : List BuildEvent :=
  [⟨.Started "u" "c" (some 10), false⟩, ⟨.Finished (some 0) (some 3), false⟩]

example : parseDelim (fun _ => none) [] = .fail .eof := by decide
example : parseDelim (fun _ => none) [5] = .fail .unexpectedEOF := by decide
example : parseDelim (fun _ => none) [1, 7] = .fail .unmarshalFailure := by decide
example : parseDelim (fun bs => if bs = [7] then some ⟨.Progress, false⟩ else none) [1, 7]
    = .ok ⟨.Progress, false⟩ 2 := by decide
example : parseDelim (fun _ => none) [128] = .fail .unexpectedEOF := by decide
example :
    parseDelim (fun _ => none) [255, 255, 255, 255, 255, 255, 255, 255, 255, 255]
      = .fail .overflow := by decide
lemma encFrom_length (k n : Nat) : (encFrom k n).length = 2 * n := by
  induction n generalizing k with
  | zero => rfl
  | succ m ih => simp [encFrom, ih]; omega

lemma encFrom_succ (k n : Nat) : encFrom k (n + 1) = encFrom k n ++ [1, k + n] := by
  induction n generalizing k with
  | zero => simp [encFrom]
  | succ m ih =>
      show 1 :: k :: encFrom (k + 1) (m + 1) = (1 :: k :: encFrom (k + 1) m) ++ [1, k + (m + 1)]
      rw [ih (k + 1), show k + 1 + m = k + (m + 1) from by omega]
      simp

lemma parseDelim_frame (hook : List Nat → Option BuildEvent) (k : Nat) (rest : List Nat) :
    parseDelim hook (1 :: k :: rest) =
      match hook [k] with
      | some ev => .ok ev 2
      | none => .fail .unmarshalFailure := by
  cases h : hook [k] <;>
    simp [parseDelim, takeVarintBytes, varintComplete, varintValue, h]

lemma applyEvents_append (xs ys : List BuildEvent) (s : buildStats) :
    applyEvents (xs ++ ys) s =
      match applyEvents xs s with
      | none => none
      | some s' => applyEvents ys s' := by
  induction xs generalizing s with
  | nil => simp [applyEvents]
  | cons e xs ih =>
      simp only [List.cons_append, applyEvents]
      cases processEvent e s with
      | none => rfl
      | some s' => exact ih s'

lemma readDelim_ok (hook : List Nat → Option BuildEvent) (avail : Nat → List Nat)
    (follow : Bool) (pollI timeout cursor startT fuel t : Nat)
    (ev : BuildEvent) (consumed : Nat)
    (hp : parseDelim hook ((avail t).drop cursor) = .ok ev consumed) :
    readDelimitedMessage hook avail follow pollI timeout cursor startT (fuel + 1) t =
      .ok ev (cursor + consumed) t := by
  simp only [readDelimitedMessage, hp]

lemma readDelim_fail (hook : List Nat → Option BuildEvent) (avail : Nat → List Nat)
    (follow : Bool) (pollI timeout cursor startT fuel t : Nat)
    (e : ParseErr) (he : e ≠ .eof)
    (hp : parseDelim hook ((avail t).drop cursor) = .fail e) :
    readDelimitedMessage hook avail follow pollI timeout cursor startT (fuel + 1) t =
      .fail t := by
  cases e with
  | eof => exact absurd rfl he
  | unexpectedEOF => simp only [readDelimitedMessage, hp]
  | overflow => simp only [readDelimitedMessage, hp]
  | sizeTooLarge => simp only [readDelimitedMessage, hp]
  | unmarshalFailure => simp only [readDelimitedMessage, hp]

lemma readDelim_eof_oneshot (hook : List Nat → Option BuildEvent) (avail : Nat → List Nat)
    (pollI timeout cursor startT fuel t : Nat)
    (hp : parseDelim hook ((avail t).drop cursor) = .fail .eof) :
    readDelimitedMessage hook avail false pollI timeout cursor startT (fuel + 1) t =
      .eof t := by
  simp only [readDelimitedMessage, hp]
  rfl

lemma readDelim_poll (hook : List Nat → Option BuildEvent) (avail : Nat → List Nat)
    (pollI timeout cursor startT fuel t : Nat)
    (hp : parseDelim hook ((avail t).drop cursor) = .fail .eof)
    (hto : t - startT ≤ timeout) :
    readDelimitedMessage hook avail true pollI timeout cursor startT (fuel + 1) t =
      readDelimitedMessage hook avail true pollI timeout cursor startT fuel (t + pollI) := by
  simp only [readDelimitedMessage, hp]
  rw [if_neg (by simp), if_neg (by omega)]

lemma readDelim_eof_elapsed (hook : List Nat → Option BuildEvent) (avail : Nat → List Nat)
    (pollI timeout cursor startT fuel t : Nat)
    (hp : parseDelim hook ((avail t).drop cursor) = .fail .eof)
    (hto : timeout < t - startT) :
    readDelimitedMessage hook avail true pollI timeout cursor startT (fuel + 1) t =
      .eof t := by
  simp only [readDelimitedMessage, hp]
  rw [if_neg (by simp), if_pos hto]

lemma streamLoop_inner_ok (hook : List Nat → Option BuildEvent) (avail : Nat → List Nat)
    (opts : streamOptions) (outerStart fuel cursor t count : Nat)
    (stats s1 : buildStats) (ev : BuildEvent) (cur' t' : Nat)
    (hr : readDelimitedMessage hook avail opts.follow opts.pollInterval opts.timeout
        cursor t (fuel + 1) t = .ok ev cur' t')
    (hs : processEvent ev stats = some s1)
    (hnt : ev.lastMessage = false) :
    streamLoop hook avail opts outerStart (fuel + 1) cursor t stats count =
      addTrace [ev] (streamLoop hook avail opts outerStart fuel cur' t' s1 (count + 1)) := by
  simp only [streamLoop, hr, hs, hnt, Bool.false_eq_true, if_false, addTrace,
    List.singleton_append]

lemma streamLoop_inner_terminal (hook : List Nat → Option BuildEvent) (avail : Nat → List Nat)
    (opts : streamOptions) (outerStart fuel cursor t count : Nat)
    (stats s1 : buildStats) (ev : BuildEvent) (cur' t' : Nat)
    (hr : readDelimitedMessage hook avail opts.follow opts.pollInterval opts.timeout
        cursor t (fuel + 1) t = .ok ev cur' t')
    (hs : processEvent ev stats = some s1)
    (hnt : ev.lastMessage = true) :
    streamLoop hook avail opts outerStart (fuel + 1) cursor t stats count =
      ⟨.explicitLast, s1, count + 1, true, [ev], t'⟩ := by
  simp only [streamLoop, hr, hs, hnt, if_true]

lemma streamLoop_inner_fail (hook : List Nat → Option BuildEvent) (avail : Nat → List Nat)
    (opts : streamOptions) (outerStart fuel cursor t count : Nat)
    (stats : buildStats) (t' : Nat)
    (hr : readDelimitedMessage hook avail opts.follow opts.pollInterval opts.timeout
        cursor t (fuel + 1) t = .fail t') :
    streamLoop hook avail opts outerStart (fuel + 1) cursor t stats count =
      ⟨.error, stats, count, false, [], t'⟩ := by
  simp only [streamLoop, hr]

lemma streamLoop_inner_eof (hook : List Nat → Option BuildEvent) (avail : Nat → List Nat)
    (opts : streamOptions) (outerStart fuel cursor t count : Nat)
    (stats : buildStats) (t' : Nat)
    (hr : readDelimitedMessage hook avail opts.follow opts.pollInterval opts.timeout
        cursor t (fuel + 1) t = .eof t') :
    streamLoop hook avail opts outerStart (fuel + 1) cursor t stats count =
      (if opts.follow = true ∧ t' - outerStart < opts.timeout then
        streamLoop hook avail opts outerStart fuel cursor (t' + opts.pollInterval) stats count
      else
        ⟨if opts.follow then .timeout else .endOfStream, stats, count, true, [], t'⟩) := by
  simp only [streamLoop, hr]

lemma streamLoop_frames (hook : List Nat → Option BuildEvent) (B : List Nat)
    (opts : streamOptions) (outerStart : Nat) :
    ∀ (es : List BuildEvent) (k cursor t count f : Nat) (stats : buildStats),
    B.drop cursor = encFrom k es.length ++ B.drop (cursor + 2 * es.length) →
    (∀ i (h : i < es.length), hook [k + i] = some es[i]) →
    (∀ e ∈ es, e.lastMessage = false) →
    (∀ e ∈ es, ∀ s, (processEvent e s).isSome) →
    ∃ stats', applyEvents es stats = some stats' ∧
      streamLoop hook (fun _ => B) opts outerStart (f + es.length) cursor t stats count =
        addTrace es (streamLoop hook (fun _ => B) opts outerStart f
          (cursor + 2 * es.length) t stats' (count + es.length)) := by
  intro es
  induction es with
  | nil =>
      intro k cursor t count f stats hB hH hNT hNP
      refine ⟨stats, rfl, ?_⟩
      simp [addTrace]
  | cons e es ih =>
      intro k cursor t count f stats hB hH hNT hNP
      have hke : hook [k] = some e := by
        have h0 := hH 0 (by simp)
        simpa using h0
      have hBcons : B.drop cursor =
          1 :: k :: (encFrom (k + 1) es.length ++ B.drop (cursor + 2 * (es.length + 1))) := by
        rw [hB]; rfl
      obtain ⟨s1, hs1⟩ := Option.isSome_iff_exists.mp
        (hNP e (List.mem_cons_self e es) stats)
      have hnt : e.lastMessage = false := hNT e (List.mem_cons_self e es)
      have hp : parseDelim hook ((fun (_ : Nat) => B) t |>.drop cursor) = .ok e 2 := by
        show parseDelim hook (B.drop cursor) = .ok e 2
        rw [hBcons, parseDelim_frame, hke]
      have hstep := streamLoop_inner_ok hook (fun _ => B) opts outerStart
        (f + es.length) cursor t count stats s1 e (cursor + 2) t
        (readDelim_ok hook (fun _ => B) opts.follow opts.pollInterval opts.timeout
          cursor t (f + es.length) t e 2 hp) hs1 hnt
      have hB' : B.drop (cursor + 2) =
          encFrom (k + 1) es.length ++ B.drop ((cursor + 2) + 2 * es.length) := by
        have h2 : B.drop (cursor + 2) = (B.drop cursor).drop 2 := by
          rw [List.drop_drop]
        rw [h2, hBcons]
        simp only [List.drop_succ_cons, List.drop_zero]
        rw [show cursor + 2 * (es.length + 1) = cursor + 2 + 2 * es.length from by omega]
      have hH' : ∀ i (h : i < es.length), hook [(k + 1) + i] = some es[i] := by
        intro i h
        have := hH (i + 1) (by simpa using Nat.succ_lt_succ h)
        rw [show k + 1 + i = k + (i + 1) from by omega]
        simpa using this
      obtain ⟨stats', hfold, hloop⟩ := ih (k + 1) (cursor + 2) t (count + 1) f s1
        hB' hH' (fun x hx => hNT x (List.mem_cons_of_mem e hx))
        (fun x hx => hNP x (List.mem_cons_of_mem e hx))
      refine ⟨stats', ?_, ?_⟩
      · simp only [applyEvents, hs1]; exact hfold
      · show streamLoop hook (fun _ => B) opts outerStart (f + es.length + 1)
          cursor t stats count = _
        rw [hstep, hloop]
        simp only [addTrace, List.singleton_append, List.cons_append]
        rw [show cursor + 2 + 2 * es.length = cursor + 2 * (es.length + 1) from by omega,
          show count + 1 + es.length = count + (es.length + 1) from by omega]
        simp

lemma readDelim_drain (hook : List Nat → Option BuildEvent) (avail : Nat → List Nat)
    (timeout cursor startT : Nat)
    (hempty : ∀ u, (avail u).drop cursor = []) :
    ∀ fuel t, startT ≤ t → t - startT ≤ timeout + 1 →
      timeout + 1 - (t - startT) < fuel →
      readDelimitedMessage hook avail true 1 timeout cursor startT fuel t =
        .eof (startT + timeout + 1) := by
  intro fuel
  induction fuel with
  | zero => intro t h1 h2 h3; omega
  | succ f ih =>
      intro t h1 h2 h3
      by_cases hto : timeout < t - startT
      · rw [readDelim_eof_elapsed hook avail 1 timeout cursor startT f t
          (by rw [hempty t]; rfl) hto]
        congr 1
        omega
      · rw [readDelim_poll hook avail 1 timeout cursor startT f t
          (by rw [hempty t]; rfl) (by omega)]
        exact ih (t + 1) (by omega) (by omega) (by omega)

lemma streamLoop_drain (hook : List Nat → Option BuildEvent) (avail : Nat → List Nat)
    (timeout outerStart fuel cursor t count : Nat) (stats : buildStats)
    (hempty : ∀ u, (avail u).drop cursor = [])
    (houter : outerStart ≤ t)
    (hfuel : timeout + 1 ≤ fuel) :
    streamLoop hook avail ⟨true, 1, timeout⟩ outerStart (fuel + 1) cursor t stats count =
      ⟨.timeout, stats, count, true, [], t + timeout + 1⟩ := by
  have hr : readDelimitedMessage hook avail true 1 timeout cursor t (fuel + 1) t =
      .eof (t + timeout + 1) :=
    readDelim_drain hook avail timeout cursor t hempty (fuel + 1) t le_rfl
      (by omega) (by omega)
  rw [streamLoop_inner_eof hook avail ⟨true, 1, timeout⟩ outerStart fuel cursor t count
    stats (t + timeout + 1) hr]
  rw [if_neg (by rintro ⟨_, hlt⟩; dsimp only at hlt; omega)]
  rfl

lemma availInc_drop_full (es : List BuildEvent) (u : Nat) :
    (availInc es u).drop (2 * es.length) = [] := by
  apply List.drop_eq_nil_of_le
  show (encFrom 0 (min u es.length)).length ≤ 2 * es.length
  rw [encFrom_length]
  omega

lemma streamLoop_incremental (hook : List Nat → Option BuildEvent) (es : List BuildEvent)
    (timeout : Nat)
    (hH : ∀ i (h : i < es.length), hook [i] = some es[i])
    (hNT : ∀ e ∈ es, e.lastMessage = false)
    (hNP : ∀ e ∈ es, ∀ s, (processEvent e s).isSome) :
    ∀ d k fuel count stats, k ≤ es.length → es.length - k = d →
      es.length - k + timeout + 1 ≤ fuel →
      ∃ stats', applyEvents (es.drop k) stats = some stats' ∧
        streamLoop hook (availInc es) ⟨true, 1, timeout⟩ 0 (fuel + 1) (2 * k) k stats count =
          addTrace (es.drop k) ⟨.timeout, stats', count + (es.length - k), true, [],
            es.length + timeout + 1⟩ := by
  intro d
  induction d with
  | zero =>
      intro k fuel count stats hk hd hf
      have hkn : k = es.length := by omega
      subst hkn
      refine ⟨stats, by rw [List.drop_length]; rfl, ?_⟩
      rw [streamLoop_drain hook (availInc es) timeout 0 fuel (2 * es.length)
        es.length count stats (availInc_drop_full es) (Nat.zero_le _) (by omega)]
      simp [addTrace]
  | succ d ih =>
      intro k fuel count stats hk hd hf
      have hklt : k < es.length := by omega
      obtain ⟨f, rfl⟩ : ∃ f, fuel = f + 1 := ⟨fuel - 1, by omega⟩
      have hp0 : parseDelim hook ((availInc es k).drop (2 * k)) = .fail .eof := by
        have hemp : (availInc es k).drop (2 * k) = [] := by
          apply List.drop_eq_nil_of_le
          show (encFrom 0 (min k es.length)).length ≤ 2 * k
          rw [encFrom_length]
          omega
        rw [hemp]
        rfl
      have hp1 : parseDelim hook ((availInc es (k + 1)).drop (2 * k)) = .ok es[k] 2 := by
        have hgrow : (availInc es (k + 1)).drop (2 * k) = 1 :: k :: [] := by
          show (encFrom 0 (min (k + 1) es.length)).drop (2 * k) = _
          rw [show min (k + 1) es.length = k + 1 from by omega, encFrom_succ]
          rw [show 2 * k = (encFrom 0 k).length from by rw [encFrom_length],
            List.drop_left]
          simp
        rw [hgrow, parseDelim_frame, hH k hklt]
      have hr : readDelimitedMessage hook (availInc es) true 1 timeout (2 * k) k
          (f + 1 + 1) k = .ok es[k] (2 * k + 2) (k + 1) := by
        rw [readDelim_poll hook (availInc es) 1 timeout (2 * k) k (f + 1) k hp0 (by omega)]
        exact readDelim_ok hook (availInc es) true 1 timeout (2 * k) k f (k + 1) es[k] 2 hp1
      obtain ⟨s1, hs1⟩ := Option.isSome_iff_exists.mp
        (hNP es[k] (List.getElem_mem hklt) stats)
      have hnt : es[k].lastMessage = false := hNT es[k] (List.getElem_mem hklt)
      have hstep := streamLoop_inner_ok hook (availInc es) ⟨true, 1, timeout⟩ 0
        (f + 1) (2 * k) k count stats s1 es[k] (2 * k + 2) (k + 1) hr hs1 hnt
      obtain ⟨stats', hfold, hloop⟩ := ih (k + 1) f (count + 1) s1 (by omega) (by omega)
        (by omega)
      have hdropk : es.drop k = es[k] :: es.drop (k + 1) := List.drop_eq_getElem_cons hklt
      refine ⟨stats', ?_, ?_⟩
      · rw [hdropk]
        simp only [applyEvents, hs1]
        exact hfold
      · rw [hstep, show 2 * k + 2 = 2 * (k + 1) from by omega, hloop, hdropk]
        simp only [addTrace, List.singleton_append, List.cons_append]
        rw [show count + 1 + (es.length - (k + 1)) = count + (es.length - k) from by omega]
        simp

lemma takeVarint_exact : ∀ (lb rest : List Nat) (m : Nat), lb.length ≤ m →
    (∀ b ∈ lb.dropLast, 128 ≤ b) → varintComplete lb = true →
    takeVarintBytes m (lb ++ rest) = lb := by
  intro lb
  induction lb with
  | nil => intro rest m _ _ hcomp; exact absurd hcomp (by simp [varintComplete])
  | cons a lb ih =>
      intro rest m hlen hcont hcomp
      obtain ⟨m', rfl⟩ : ∃ m', m = m' + 1 := ⟨m - 1, by simp at hlen; omega⟩
      cases lb with
      | nil =>
          have ha : a < 128 := by simpa [varintComplete] using hcomp
          simp [takeVarintBytes, ha]
      | cons b lb' =>
          have ha : 128 ≤ a := hcont a (by simp [List.dropLast])
          have hcomp' : varintComplete (b :: lb') = true := hcomp
          have hcont' : ∀ x ∈ (b :: lb').dropLast, 128 ≤ x := by
            intro x hx
            exact hcont x (by simp [List.dropLast] at hx ⊢; tauto)
          show takeVarintBytes (m' + 1) (a :: ((b :: lb') ++ rest)) = _
          rw [takeVarintBytes]
      -- continuation bit set: collect a and recurse
          rw [if_neg (by omega)]
          rw [ih rest m' (by simp at hlen ⊢; omega) hcont' hcomp']

lemma truncated_parse (hook : List Nat → Option BuildEvent) (lb body : List Nat)
    (henc : IsVarintEnc lb) (hshort : body.length < varintValue lb) :
    ∃ e, parseDelim hook (lb ++ body) = .fail e ∧ e ≠ .eof := by
  obtain ⟨hne, hlen, hcont, hcomp⟩ := henc
  have htake : takeVarintBytes 10 (lb ++ body) = lb :=
    takeVarint_exact lb body 10 hlen hcont hcomp
  have hdrop : (lb ++ body).drop lb.length = body := List.drop_left lb body
  obtain ⟨a, lb', rfl⟩ : ∃ a l, lb = a :: l := by
    cases lb with
    | nil => exact absurd rfl hne
    | cons a l => exact ⟨a, l, rfl⟩
  by_cases h64 : 2 ^ 64 ≤ varintValue (a :: lb')
  · refine ⟨.overflow, ?_, by decide⟩
    show parseDelim hook (a :: (lb' ++ body)) = _
    simp only [parseDelim]
    rw [show a :: (lb' ++ body) = (a :: lb') ++ body from rfl, htake, if_pos hcomp,
      if_pos h64]
  · by_cases hsz : 4194304 < varintValue (a :: lb')
    · refine ⟨.sizeTooLarge, ?_, by decide⟩
      show parseDelim hook (a :: (lb' ++ body)) = _
      simp only [parseDelim]
      rw [show a :: (lb' ++ body) = (a :: lb') ++ body from rfl, htake, if_pos hcomp,
        if_neg h64, if_pos hsz]
    · refine ⟨.unexpectedEOF, ?_, by decide⟩
      show parseDelim hook (a :: (lb' ++ body)) = _
      simp only [parseDelim]
      rw [show a :: (lb' ++ body) = (a :: lb') ++ body from rfl, htake, if_pos hcomp,
        if_neg h64, if_neg hsz, hdrop, if_pos hshort]

lemma streamLoop_oneshot_end (hook : List Nat → Option BuildEvent) (avail : Nat → List Nat)
    (pollI timeout outerStart fuel cursor t count : Nat) (stats : buildStats)
    (hp : parseDelim hook ((avail t).drop cursor) = .fail .eof) :
    streamLoop hook avail ⟨false, pollI, timeout⟩ outerStart (fuel + 1) cursor t stats count =
      ⟨.endOfStream, stats, count, true, [], t⟩ := by
  rw [streamLoop_inner_eof hook avail ⟨false, pollI, timeout⟩ outerStart fuel cursor t count
    stats t (readDelim_eof_oneshot hook avail pollI timeout cursor t fuel t hp)]
  rw [if_neg (by rintro ⟨hf, _⟩; exact absurd hf (by simp))]
  rfl

lemma streamLoop_snapshot_iff (hook : List Nat → Option BuildEvent) (avail : Nat → List Nat)
    (opts : streamOptions) (outerStart : Nat) :
    ∀ fuel cursor t stats count,
      ((streamLoop hook avail opts outerStart fuel cursor t stats count).snapshotEmitted = true ↔
        ((streamLoop hook avail opts outerStart fuel cursor t stats count).reason = .explicitLast ∨
         (streamLoop hook avail opts outerStart fuel cursor t stats count).reason = .timeout ∨
         (streamLoop hook avail opts outerStart fuel cursor t stats count).reason = .endOfStream)) := by
  intro fuel
  induction fuel with
  | zero =>
      intro cursor t stats count
      simp [streamLoop]
  | succ f ih =>
      intro cursor t stats count
      simp only [streamLoop]
      cases hr : readDelimitedMessage hook avail opts.follow opts.pollInterval opts.timeout
          cursor t (f + 1) t with
      | fuelOut => simp
      | eof t' =>
          by_cases hc : opts.follow = true ∧ t' - outerStart < opts.timeout
          · simp only [if_pos hc]
            exact ih cursor (t' + opts.pollInterval) stats count
          · simp only [if_neg hc]
            cases hfo : opts.follow <;> simp
      | fail t' => simp
      | ok ev cur' t' =>
          cases hs : processEvent ev stats with
          | none => simp [hs]
          | some s1 =>
              simp only [hs]
              by_cases hl : ev.lastMessage = true
              · simp [hl]
              · simp only [Bool.not_eq_true] at hl
                simp only [hl, Bool.false_eq_true, if_false]
                exact ih cur' t' s1 (count + 1)

lemma processEvent_flags (e : BuildEvent) (s0 s1 : buildStats)
    (h : processEvent e s0 = some s1) :
    s1.buildStarted = (s0.buildStarted || evIsStarted e) ∧
    s1.buildFinished = (s0.buildFinished || evIsFinished e) := by
  cases e with
  | mk p last =>
      cases p <;>
        simp only [processEvent, evIsStarted, evIsFinished] at h ⊢ <;>
        first
        | (cases h; simp)
        | (split_ifs at h <;> cases h <;> simp)
        | (rename_i ec ft; cases ec with
           | none => cases h
           | some c => simp only [Option.some.injEq] at h; rw [← h]; simp)

lemma applyEvents_flags : ∀ (es : List BuildEvent) (s0 s : buildStats),
    applyEvents es s0 = some s →
    s.buildStarted = (s0.buildStarted || es.any evIsStarted) ∧
    s.buildFinished = (s0.buildFinished || es.any evIsFinished) := by
  intro es
  induction es with
  | nil =>
      intro s0 s h
      simp only [applyEvents, Option.some.injEq] at h
      rw [← h]
      simp
  | cons e es ih =>
      intro s0 s h
      simp only [applyEvents] at h
      cases hpe : processEvent e s0 with
      | none => rw [hpe] at h; cases h
      | some s1 =>
          rw [hpe] at h
          obtain ⟨h1, h2⟩ := processEvent_flags e s0 s1 hpe
          obtain ⟨h3, h4⟩ := ih s1 s h
          constructor
          · rw [h3, h1]; simp [Bool.or_assoc]
          · rw [h4, h2]; simp [Bool.or_assoc]

lemma processEvent_inv (e : BuildEvent) (s0 s1 : buildStats) (hinv : statsInv s0)
    (h : processEvent e s0 = some s1) : statsInv s1 := by
  obtain ⟨hi1, hi2⟩ := hinv
  cases e with
  | mk p last =>
      cases p <;>
        simp only [processEvent, statsInv] at h ⊢ <;>
        first
        | (cases h; exact ⟨hi1, hi2⟩)
        | (split_ifs at h <;> cases h <;> constructor <;> simp <;> omega)
        | (rename_i ec ft; cases ec with
           | none => cases h
           | some c =>
               simp only [Option.some.injEq] at h
               rw [← h]
               exact ⟨hi1, hi2⟩)

lemma applyEvents_inv : ∀ (es : List BuildEvent) (s0 s : buildStats),
    statsInv s0 → applyEvents es s0 = some s → statsInv s := by
  intro es
  induction es with
  | nil =>
      intro s0 s hinv h
      simp only [applyEvents, Option.some.injEq] at h
      rw [← h]
      exact hinv
  | cons e es ih =>
      intro s0 s hinv h
      simp only [applyEvents] at h
      cases hpe : processEvent e s0 with
      | none => rw [hpe] at h; cases h
      | some s1 =>
          rw [hpe] at h
          exact ih s1 s (processEvent_inv e s0 s1 hinv hpe) h

/-- C5: feeding the run, in order, Started(uuid="X", command="build"), two
Progress events, Completed(success=true), TestSummary(PASSED),
Finished(exit_code=0) and an empty terminal event yields the snapshot
uuid="X", command="build", targets_built=1, targets_failed=0, tests_run=1,
tests_passed=1, tests_failed=0, progress_events=2, actions_executed=0,
exit_code=0, and the run terminates with reason ExplicitLast. -/
theorem c5_concrete_scenario :
    scenarioRun.reason = .explicitLast ∧
    scenarioRun.stats.uuid = "X" ∧
    scenarioRun.stats.command = "build" ∧
    scenarioRun.stats.targetsBuilt = 1 ∧
    scenarioRun.stats.targetsFailed = 0 ∧
    scenarioRun.stats.testsRun = 1 ∧
    scenarioRun.stats.testsPassed = 1 ∧
    scenarioRun.stats.testsFailed = 0 ∧
    scenarioRun.stats.progressEvents = 2 ∧
    scenarioRun.stats.actionsExecuted = 0 ∧
    scenarioRun.stats.exitCode = 0 := by decide

/-- C9: processing an event whose payload is TestResult, Configured,
Aborted, Configuration, BuildToolLogs, BuildMetrics or an unrecognized
(Unknown) payload leaves every field of the summary state unchanged - the
update returns the stats record exactly as given, whatever the terminal
flag or status value. -/
theorem c9_print_only_variants_no_mutation :
    ∀ (s : buildStats) (l : Bool) (st : TestStatus),
      processEvent ⟨.TestResult st, l⟩ s = some s ∧
      processEvent ⟨.Configured, l⟩ s = some s ∧
      processEvent ⟨.Aborted, l⟩ s = some s ∧
      processEvent ⟨.Configuration, l⟩ s = some s ∧
      processEvent ⟨.BuildToolLogs, l⟩ s = some s ∧
      processEvent ⟨.BuildMetrics, l⟩ s = some s ∧
      processEvent ⟨.Unknown, l⟩ s = some s := by
  intro s l st
  exact ⟨rfl, rfl, rfl, rfl, rfl, rfl, rfl⟩

/-- C10: from the zero-initialized summary state, every sequence of
aggregator updates preserves tests_passed + tests_failed = tests_run and
targets_failed ≤ targets_built; each TestSummary event increments tests_run
and exactly one of tests_passed or tests_failed, and targets_failed is only
incremented together with targets_built. -/
theorem c10_aggregator_invariants :
    (∀ (es : List BuildEvent) (s : buildStats),
      applyEvents es {} = some s →
      s.testsPassed + s.testsFailed = s.testsRun ∧ s.targetsFailed ≤ s.targetsBuilt) ∧
    (∀ (l : Bool) (st : TestStatus) (s s' : buildStats),
      processEvent ⟨.TestSummary st, l⟩ s = some s' →
      s'.testsRun = s.testsRun + 1 ∧
      ((s'.testsPassed = s.testsPassed + 1 ∧ s'.testsFailed = s.testsFailed) ∨
       (s'.testsFailed = s.testsFailed + 1 ∧ s'.testsPassed = s.testsPassed))) ∧
    (∀ (e : BuildEvent) (s s' : buildStats),
      processEvent e s = some s' → s'.targetsFailed ≠ s.targetsFailed →
      s'.targetsBuilt = s.targetsBuilt + 1 ∧ s'.targetsFailed = s.targetsFailed + 1) := by
  refine ⟨?_, ?_, ?_⟩
  · intro es s h
    exact applyEvents_inv es {} s ⟨rfl, Nat.le_refl 0⟩ h
  · intro l st s s' h
    simp only [processEvent] at h
    split_ifs at h <;> cases h
    · exact ⟨rfl, Or.inl ⟨rfl, rfl⟩⟩
    · exact ⟨rfl, Or.inr ⟨rfl, rfl⟩⟩
  · intro e s s' h hne
    cases e with
    | mk p last =>
        cases p <;> simp only [processEvent] at h <;>
          first
          | (cases h; exact absurd rfl hne)
          | (rename_i ec ft; cases ec with
             | none => cases h
             | some c =>
                 simp only [Option.some.injEq] at h
                 rw [← h] at hne
                 exact absurd rfl hne)
          | (split_ifs at h <;> cases h <;>
              first
              | exact absurd rfl hne
              | exact ⟨rfl, rfl⟩)

/-- C10 witness: a concrete run - one passing TestSummary then one failing
Completed target - lands in a state satisfying both invariants. -/
theorem c10_aggregator_invariants_witness :
    ∃ s, applyEvents [⟨.TestSummary .PASSED, false⟩, ⟨.Completed false, false⟩] {} = some s ∧
      (s.testsPassed + s.testsFailed = s.testsRun ∧ s.targetsFailed ≤ s.targetsBuilt) := by
  refine ⟨{ testsRun := 1, testsPassed := 1, targetsBuilt := 1, targetsFailed := 1 }, ?_, ?_⟩
  · decide
  · exact c10_aggregator_invariants.1
      [⟨.TestSummary .PASSED, false⟩, ⟨.Completed false, false⟩] _ (by decide)

/-- C4 (code bug): a Finished event whose ExitCode sub-message is absent
makes processEvent fail - the Go source dereferences the nil ExitCode
pointer and panics - while the nil-guarded optional sub-fields (timestamps)
do degrade gracefully: Finished with no finish time and Started with no
start time update the stats totally, only leaving the timestamp at its
default. -/
theorem c4_finished_missing_exitcode_panics :
    processEvent ⟨.Finished none (some 5), false⟩ {} = none ∧
    processEvent ⟨.Finished (some 0) none, false⟩ {} =
      some { buildFinished := true, exitCode := 0 } ∧
    processEvent ⟨.Started "u" "c" none, false⟩ {} =
      some { buildStarted := true, uuid := "u", command := "c" } := by decide

/-- C2 counterexample: a one-shot run over a truncated frame terminates with
reason Error and the statistics block after the loop is never reached - the
final snapshot is NOT emitted on the Error path, because streamBEP returns
the read error before the statistics print. -/
theorem c2_no_snapshot_on_error_counterexample :
    truncatedRun.reason = .error ∧ truncatedRun.snapshotEmitted = false := by decide

/-- C2 amended: the final snapshot is emitted exactly when the run ends via
the loop break paths - ExplicitLast, Timeout or EndOfStream; on Error (and
on a panic) streamBEP returns early and no snapshot is emitted. -/
theorem c2_snapshot_iff_break_reason (hook : List Nat → Option BuildEvent)
    (avail : Nat → List Nat) (opts : streamOptions) (fuel : Nat) :
    (streamBEP hook avail opts fuel).snapshotEmitted = true ↔
      ((streamBEP hook avail opts fuel).reason = .explicitLast ∨
       (streamBEP hook avail opts fuel).reason = .timeout ∨
       (streamBEP hook avail opts fuel).reason = .endOfStream) :=
  streamLoop_snapshot_iff hook avail opts 0 fuel 0 0 {} 0

/-- C3 counterexample: with deadline 3 and poll interval 1, a single
non-terminal event arriving at time 3 makes the run end at time 7, later
than deadline + one poll interval = 4: the successfully decoded message
re-anchored the deadline window at the next read call. -/
theorem c3_deadline_reset_counterexample :
    lateRun.reason = .timeout ∧ lateRun.eventCount = 1 ∧
    lateRun.endTime = 7 ∧ 3 + 1 < 7 := by decide

/-- C3 amended: the deadline window is anchored per message-read call, not
per run - each decoded event re-arms a fresh window.  With no data arriving
at all the two anchors coincide and the run does end with Timeout exactly at
deadline + one poll interval; but the late-arrival run shows the end time
3 + 3 + 1: a fresh full window after the event decoded at time 3. -/
theorem c3_deadline_window_per_read (T : Nat) (hook : List Nat → Option BuildEvent) :
    ((streamBEP hook (fun _ => []) ⟨true, 1, T⟩ (T + 2)).reason = .timeout ∧
     (streamBEP hook (fun _ => []) ⟨true, 1, T⟩ (T + 2)).endTime = T + 1) ∧
    lateRun.endTime = 3 + 3 + 1 := by
  refine ⟨?_, by decide⟩
  have h := streamLoop_drain hook (fun _ => []) T 0 (T + 1) 0 0 0 {}
    (fun u => by simp) (Nat.le_refl 0) (by omega)
  constructor
  · show (streamLoop hook (fun _ => []) ⟨true, 1, T⟩ 0 (T + 1 + 1) 0 0 {} 0).reason = _
    rw [h]
  · show (streamLoop hook (fun _ => []) ⟨true, 1, T⟩ 0 (T + 1 + 1) 0 0 {} 0).endTime = _
    rw [h]
    simp

/-- C8 counterexample: after a Started event carrying no start timestamp and
a Finished event at time 5, a duration IS reported - computed from the zero
default start time - although the start timestamp was never present on the
observed event, contradicting "only when both timestamps were actually
present, never backfilled from a default". -/
theorem c8_duration_backfilled_counterexample :
    (applyEvents missingStartTimestamp {}).map printSummaryDuration = some (some 5) := by
  decide

/-- C8 amended: the duration line is reported iff both a Started and a
Finished event were observed (the buildStarted and buildFinished flags),
computed from whatever timestamp values are recorded - the zero default
standing in when an event carried no timestamp - and a negative duration
(end before start) is reported as-is rather than clamped: the negDuration
run reports -7. -/
theorem c8_duration_iff_observed_events :
    (∀ (es : List BuildEvent) (s : buildStats),
      applyEvents es {} = some s →
      ((printSummaryDuration s).isSome ↔
        (es.any evIsStarted = true ∧ es.any evIsFinished = true))) ∧
    (applyEvents negDuration {}).map printSummaryDuration = some (some (-7)) := by
  constructor
  · intro es s h
    obtain ⟨h1, h2⟩ := applyEvents_flags es {} s h
    rw [printSummaryDuration, h1, h2]
    simp only [show ({} : buildStats).buildStarted = false from rfl,
      show ({} : buildStats).buildFinished = false from rfl, Bool.false_or]
    by_cases ha : es.any evIsStarted = true <;> by_cases hb : es.any evIsFinished = true <;>
      simp [ha, hb]
  · decide

/-- C8 witness: the amended biconditional applied to the negDuration run -
both a Started and a Finished event were observed, so a duration is
reported. -/
theorem c8_duration_iff_observed_events_witness :
    ∃ s, applyEvents negDuration {} = some s ∧ (printSummaryDuration s).isSome := by
  have h : applyEvents negDuration {} =
      some { buildStarted := true, buildFinished := true, startTime := 10, endTime := 3,
             uuid := "u", command := "c" } := by decide
  exact ⟨_, h, by rw [c8_duration_iff_observed_events.1 negDuration _ h]; decide⟩

/-- C6: for a one-shot run over any block of well-formed frames followed by
a final frame whose declared body length exceeds the bytes present, the run
terminates with reason Error; the truncated frame is never returned as a
successful decode nor counted - the event count and the processed trace
cover exactly the preceding complete frames. -/
theorem c6_truncated_final_frame_errors (hook : List Nat → Option BuildEvent)
    (es : List BuildEvent) (lb body : List Nat) (f pollI timeout : Nat)
    (hH : ∀ i (h : i < es.length), hook [i] = some es[i])
    (hNT : ∀ e ∈ es, e.lastMessage = false)
    (hNP : ∀ e ∈ es, ∀ s, (processEvent e s).isSome)
    (henc : IsVarintEnc lb) (hshort : body.length < varintValue lb) :
    ∃ stats', applyEvents es {} = some stats' ∧
      streamBEP hook (fun _ => encFrom 0 es.length ++ (lb ++ body)) ⟨false, pollI, timeout⟩
          (f + 1 + es.length) =
        { reason := .error, stats := stats', eventCount := es.length,
          snapshotEmitted := false, processed := es, endTime := 0 } := by
  set B := encFrom 0 es.length ++ (lb ++ body) with hBdef
  have hBdrop : B.drop (2 * es.length) = lb ++ body := by
    rw [hBdef, show 2 * es.length = (encFrom 0 es.length).length from
      (encFrom_length 0 es.length).symm, List.drop_left]
  have hB : B.drop 0 = encFrom 0 es.length ++ B.drop (0 + 2 * es.length) := by
    rw [List.drop_zero, show 0 + 2 * es.length = 2 * es.length from by omega, hBdrop]
  have hH0 : ∀ i (h : i < es.length), hook [0 + i] = some es[i] := fun i h => by
    rw [Nat.zero_add]; exact hH i h
  obtain ⟨stats', hfold, hloop⟩ := streamLoop_frames hook B ⟨false, pollI, timeout⟩ 0
    es 0 0 0 0 (f + 1) {} hB hH0 hNT hNP
  obtain ⟨e, hpe, hne⟩ := truncated_parse hook lb body henc hshort
  have hp : parseDelim hook (B.drop (0 + 2 * es.length)) = .fail e := by
    rw [show 0 + 2 * es.length = 2 * es.length from by omega, hBdrop]
    exact hpe
  have hend := streamLoop_inner_fail hook (fun _ => B) ⟨false, pollI, timeout⟩ 0 f
    (0 + 2 * es.length) 0 (0 + es.length) stats' 0
    (readDelim_fail hook (fun _ => B) false pollI timeout (0 + 2 * es.length) 0 f 0 e hne hp)
  refine ⟨stats', hfold, ?_⟩
  show streamLoop hook (fun _ => B) ⟨false, pollI, timeout⟩ 0 (f + 1 + es.length)
    0 0 {} 0 = _
  rw [hloop, hend]
  simp [addTrace]

/-- C6 witness: a Progress frame followed by a frame declaring five body
bytes with only one present - the one-shot run errors out having counted
only the complete Progress frame. -/
theorem c6_truncated_final_frame_errors_witness :
    ∃ stats', applyEvents [progressEvent] {} = some stats' ∧
      streamBEP (evHook [progressEvent]) (fun _ => encFrom 0 1 ++ ([5] ++ [7]))
          ⟨false, 1, 5⟩ 2 =
        { reason := .error, stats := stats', eventCount := 1,
          snapshotEmitted := false, processed := [progressEvent], endTime := 0 } := by
  exact c6_truncated_final_frame_errors (evHook [progressEvent]) [progressEvent] [5] [7]
    0 1 5
    (by decide)
    (by decide)
    (by intro x hx s; simp only [List.mem_singleton] at hx; subst hx; rfl)
    ⟨by decide, by decide, by decide, by decide⟩
    (by decide)

/-- C7: an event carrying the terminal flag is counted in the aggregator
exactly once and stops the run immediately with reason ExplicitLast: for any
block of well-formed non-terminal frames followed by a terminal-flagged
frame and then ARBITRARY further bytes, the run processes exactly the
prefix events plus the terminal event and never looks at the remaining
bytes. -/
theorem c7_terminal_event_stops_run (hook : List Nat → Option BuildEvent)
    (es : List BuildEvent) (e : BuildEvent) (rest : List Nat)
    (opts : streamOptions) (f : Nat)
    (hH : ∀ i (h : i < es.length), hook [i] = some es[i])
    (hHe : hook [es.length] = some e)
    (hNT : ∀ x ∈ es, x.lastMessage = false)
    (hNP : ∀ x ∈ es, ∀ s, (processEvent x s).isSome)
    (hterm : e.lastMessage = true)
    (hPe : ∀ s, (processEvent e s).isSome) :
    ∃ sfin, applyEvents (es ++ [e]) {} = some sfin ∧
      streamBEP hook (fun _ => encFrom 0 (es.length + 1) ++ rest) opts (f + 1 + es.length) =
        { reason := .explicitLast, stats := sfin, eventCount := es.length + 1,
          snapshotEmitted := true, processed := es ++ [e], endTime := 0 } := by
  set B := encFrom 0 (es.length + 1) ++ rest with hBdef
  have hBdrop : B.drop (2 * es.length) = 1 :: es.length :: rest := by
    rw [hBdef, encFrom_succ, Nat.zero_add, List.append_assoc,
      show 2 * es.length = (encFrom 0 es.length).length from
        (encFrom_length 0 es.length).symm, List.drop_left]
    rfl
  have hB : B.drop 0 = encFrom 0 es.length ++ B.drop (0 + 2 * es.length) := by
    rw [List.drop_zero, show 0 + 2 * es.length = 2 * es.length from by omega, hBdrop, hBdef,
      encFrom_succ, Nat.zero_add, List.append_assoc]
    rfl
  have hH0 : ∀ i (h : i < es.length), hook [0 + i] = some es[i] := fun i h => by
    rw [Nat.zero_add]; exact hH i h
  obtain ⟨stats', hfold, hloop⟩ := streamLoop_frames hook B opts 0 es 0 0 0 0 (f + 1) {}
    hB hH0 hNT hNP
  obtain ⟨sfin, hsfin⟩ := Option.isSome_iff_exists.mp (hPe stats')
  have hp : parseDelim hook (B.drop (0 + 2 * es.length)) = .ok e 2 := by
    rw [show 0 + 2 * es.length = 2 * es.length from by omega, hBdrop, parseDelim_frame, hHe]
  have hr := readDelim_ok hook (fun _ => B) opts.follow opts.pollInterval opts.timeout
    (0 + 2 * es.length) 0 f 0 e 2 hp
  have hend := streamLoop_inner_terminal hook (fun _ => B) opts 0 f
    (0 + 2 * es.length) 0 (0 + es.length) stats' sfin e (0 + 2 * es.length + 2) 0
    hr hsfin hterm
  refine ⟨sfin, ?_, ?_⟩
  · rw [applyEvents_append es [e] {}, hfold]
    simp only [applyEvents, hsfin]
  · show streamLoop hook (fun _ => B) opts 0 (f + 1 + es.length) 0 0 {} 0 = _
    rw [hloop, hend]
    simp [addTrace]

/-- C7 witness: one Progress frame, then a terminal empty event, then two
more unread bytes in the source - the run stops at the terminal event with
reason ExplicitLast, counting two events. -/
theorem c7_terminal_event_stops_run_witness :
    ∃ sfin, applyEvents ([progressEvent] ++ [terminalEvent]) {} = some sfin ∧
      streamBEP (evHook [progressEvent, terminalEvent])
          (fun _ => encFrom 0 2 ++ [1, 9]) ⟨false, 1, 5⟩ 2 =
        { reason := .explicitLast, stats := sfin, eventCount := 2,
          snapshotEmitted := true, processed := [progressEvent] ++ [terminalEvent],
          endTime := 0 } := by
  exact c7_terminal_event_stops_run (evHook [progressEvent, terminalEvent])
    [progressEvent] terminalEvent [1, 9] ⟨false, 1, 5⟩ 0
    (by decide)
    (by decide)
    (by decide)
    (by intro x hx s; simp only [List.mem_singleton] at hx; subst hx; rfl)
    rfl
    (fun s => rfl)

/-- C1 counterexample: bytes appended one at a time are NOT decoded like a
bulk write.  With the single frame [1, 0] (length byte, one body byte)
appended one byte per tick, the tailing run reads the lone length byte,
finds the body missing, gets a non-EOF error (io.ErrUnexpectedEOF) and
terminates with reason Error having decoded nothing - while the tailing run
over a single bulk write of the same two bytes decodes the event and ends
with the non-fatal Timeout.  A frame whose body is temporarily shorter than
its declared length is surfaced as an error, not retried. -/
theorem c1_partial_frame_error_counterexample :
    dribbleRun.reason = .error ∧ dribbleRun.eventCount = 0 ∧ dribbleRun.processed = [] ∧
    bulkRun.reason = .timeout ∧ bulkRun.eventCount = 1 ∧
    bulkRun.processed = [progressEvent] := by decide

/-- C1 amended: retry happens only when NO byte of the next frame is
visible at a read attempt; if every frame is appended atomically between
read attempts (one whole frame per tick), the tailing run decodes exactly
the same events, in order, as a one-shot run over a single bulk write of
the same bytes, and ends with the non-fatal Timeout instead of an error. -/
theorem c1_atomic_appends_decode_like_bulk (hook : List Nat → Option BuildEvent)
    (es : List BuildEvent) (timeout : Nat)
    (hH : ∀ i (h : i < es.length), hook [i] = some es[i])
    (hNT : ∀ e ∈ es, e.lastMessage = false)
    (hNP : ∀ e ∈ es, ∀ s, (processEvent e s).isSome) :
    ∃ stats', applyEvents es {} = some stats' ∧
      streamBEP hook (availInc es) ⟨true, 1, timeout⟩ (es.length + timeout + 2) =
        { reason := .timeout, stats := stats', eventCount := es.length,
          snapshotEmitted := true, processed := es, endTime := es.length + timeout + 1 } ∧
      streamBEP hook (fun _ => encFrom 0 es.length) ⟨false, 1, timeout⟩ (es.length + 1) =
        { reason := .endOfStream, stats := stats', eventCount := es.length,
          snapshotEmitted := true, processed := es, endTime := 0 } := by
  obtain ⟨stats', hfold, hloop⟩ := streamLoop_incremental hook es timeout hH hNT hNP
    es.length 0 (es.length + timeout + 1) 0 {} (Nat.zero_le _) (by omega) (by omega)
  have hfold' : applyEvents es {} = some stats' := by simpa using hfold
  refine ⟨stats', hfold', ?_, ?_⟩
  · show streamLoop hook (availInc es) ⟨true, 1, timeout⟩ 0
      (es.length + timeout + 1 + 1) (2 * 0) 0 {} 0 = _
    rw [hloop]
    simp [addTrace]
  · have hB : (encFrom 0 es.length).drop 0 =
        encFrom 0 es.length ++ (encFrom 0 es.length).drop (0 + 2 * es.length) := by
      rw [List.drop_zero, show 0 + 2 * es.length = 2 * es.length from by omega,
        List.drop_eq_nil_of_le (le_of_eq (encFrom_length 0 es.length))]
      simp
    have hH0 : ∀ i (h : i < es.length), hook [0 + i] = some es[i] := fun i h => by
      rw [Nat.zero_add]; exact hH i h
    obtain ⟨stats'', hfold2, hloop2⟩ := streamLoop_frames hook (encFrom 0 es.length)
      ⟨false, 1, timeout⟩ 0 es 0 0 0 0 1 {} hB hH0 hNT hNP
    have hsame : stats'' = stats' := Option.some.inj (hfold2.symm.trans hfold')
    rw [hsame] at hloop2
    have hp : parseDelim hook ((encFrom 0 es.length).drop (0 + 2 * es.length)) =
        .fail .eof := by
      rw [show 0 + 2 * es.length = 2 * es.length from by omega,
        List.drop_eq_nil_of_le (le_of_eq (encFrom_length 0 es.length))]
      rfl
    have hend := streamLoop_oneshot_end hook (fun _ => encFrom 0 es.length) 1 timeout 0 0
      (0 + 2 * es.length) 0 (0 + es.length) stats' hp
    show streamLoop hook (fun _ => encFrom 0 es.length) ⟨false, 1, timeout⟩ 0
      (es.length + 1) 0 0 {} 0 = _
    rw [show es.length + 1 = 1 + es.length from by omega, hloop2, hend]
    simp [addTrace]

/-- C1 witness: a single Progress frame appearing one whole frame per tick
is decoded identically to the bulk one-shot run, with no error. -/
theorem c1_atomic_appends_decode_like_bulk_witness :
    ∃ stats', applyEvents [progressEvent] {} = some stats' ∧
      streamBEP (evHook [progressEvent]) (availInc [progressEvent]) ⟨true, 1, 1⟩ 4 =
        { reason := .timeout, stats := stats', eventCount := 1,
          snapshotEmitted := true, processed := [progressEvent], endTime := 3 } ∧
      streamBEP (evHook [progressEvent]) (fun _ => encFrom 0 1) ⟨false, 1, 1⟩ 2 =
        { reason := .endOfStream, stats := stats', eventCount := 1,
          snapshotEmitted := true, processed := [progressEvent], endTime := 0 } := by
  exact c1_atomic_appends_decode_like_bulk (evHook [progressEvent]) [progressEvent] 1
    (by decide)
    (by decide)
    (by intro x hx s; simp only [List.mem_singleton] at hx; subst hx; rfl)
